import Mathlib

/-!
Shallow embedding of the deployment orchestration core of the repository
(`src/main.rs`): layered settings merging, per-node profile ordering,
target selection, the override purity gate, and the two-phase
push/deploy orchestration.  Mappings (`HashMap` in the source) are
embedded as association lists in iteration order; external collaborators
(the Pusher and the Deployer) are embedded as boolean-valued oracles and
every externally visible call is recorded in an event trace.
-/

namespace Deploy

/-- The layered settings record (`utils::data::GenericSettings`):
each connection/behaviour option is independently present-or-absent. -/
structure GenericSettings where
  ssh_user : Option String
  profile_user : Option String
  ssh_opts : Option String
  fast_connection : Option Bool
  auto_rollback : Option Bool
  hostname : Option String
deriving Repr, DecidableEq

/-- Field-level merge: keep the left value when it is set, otherwise
take the right value. -/
def mergeField {α : Type} : Option α → Option α → Option α
  | some x, _ => some x
  | none, y => y

/-- Modelled from the spec: the `Merge` implementation for
`GenericSettings` lives in the missing `utils::data` module; the spec
describes it as a fill-absent-fields-only merge (`self.merge(other)`
keeps every field of `self` that is set and fills the unset ones from
`other`). -/
def GenericSettings.merge (a b : GenericSettings) : GenericSettings where
  ssh_user := mergeField a.ssh_user b.ssh_user
  profile_user := mergeField a.profile_user b.profile_user
  ssh_opts := mergeField a.ssh_opts b.ssh_opts
  fast_connection := mergeField a.fast_connection b.fast_connection
  auto_rollback := mergeField a.auto_rollback b.auto_rollback
  hostname := mergeField a.hostname b.hostname

/-- The settings merge of `main.rs` lines 82-84 / 134-136: start from the
global record, merge in the node record, then the profile record. -/
def resolve (global node profile : GenericSettings) : GenericSettings :=
  (global.merge node).merge profile

/-- A profile (`utils::data::Profile`): its settings record plus an
opaque deployment payload passed through to the Pusher/Deployer. -/
structure Profile where
  generic_settings : GenericSettings
  payload : String
deriving Repr, DecidableEq

/-- A node (`utils::data::Node`): profile mapping (association list in
iteration order), explicit `profiles_order`, node-level settings. -/
structure Node where
  profiles : List (String × Profile)
  profiles_order : List String
  generic_settings : GenericSettings
deriving Repr, DecidableEq

/-- The deployment data (`utils::data::Data`): global settings plus the
node mapping in iteration order. -/
structure Data where
  generic_settings : GenericSettings
  nodes : List (String × Node)
deriving Repr, DecidableEq

/-- The CLI overrides record (`utils::CmdOverrides`, fields as built in
`main.rs` lines 320-327). -/
structure CmdOverrides where
  ssh_user : Option String
  profile_user : Option String
  ssh_opts : Option String
  fast_connection : Option Bool
  auto_rollback : Option Bool
  hostname : Option String
deriving Repr, DecidableEq

/-- The override purity classification (`utils::OverridePurity`). -/
inductive OverridePurity where
  | Pure
  | Warn
  | Error
  | ErrorProfile
deriving Repr, DecidableEq

/-- Modelled from the spec: `CmdOverrides::purity` lives in the missing
`utils` module.  Per the spec: a profile-identity field (the profile
user) forces `ErrorProfile`; machine-identity fields (hostname, SSH
user) force `Error`; the remaining broad-but-risky options force
`Warn`; with no override set the result is `Pure`. -/
def CmdOverrides.purity (o : CmdOverrides) : OverridePurity :=
  if o.profile_user.isSome then OverridePurity.ErrorProfile
  else if o.hostname.isSome || o.ssh_user.isSome then OverridePurity.Error
  else if o.ssh_opts.isSome || o.fast_connection.isSome || o.auto_rollback.isSome then
    OverridePurity.Warn
  else OverridePurity.Pure

/-- The parsed flake reference (`utils::DeployFlake`). -/
structure DeployFlake where
  repo : String
  node : Option String
  profile : Option String
deriving Repr, DecidableEq

/-- The per-target deployment descriptor handed to the Pusher and the
Deployer (`utils::DeployData` / the spec's EffectiveTarget). -/
structure DeployData where
  node_name : String
  profile_name : String
  profile : Profile
  merged_settings : GenericSettings
deriving Repr, DecidableEq

/-- Apply the CLI overrides on top of a merged settings record: an
override that is set always wins. -/
def applyOverrides (s : GenericSettings) (o : CmdOverrides) : GenericSettings where
  ssh_user := mergeField o.ssh_user s.ssh_user
  profile_user := mergeField o.profile_user s.profile_user
  ssh_opts := mergeField o.ssh_opts s.ssh_opts
  fast_connection := mergeField o.fast_connection s.fast_connection
  auto_rollback := mergeField o.auto_rollback s.auto_rollback
  hostname := mergeField o.hostname s.hostname

/-- Modelled from the spec: `utils::make_deploy_data` lives in the
missing `utils` module.  Per the spec, the EffectiveTarget carries the
fully merged settings (global, then node, then profile, most general
wins when set) with the CLI overrides applied at highest precedence,
plus the identifying node name, profile name and profile payload.  The
spec assigns it no failure condition, so it is total here. -/
def make_deploy_data (top_settings : GenericSettings) (node : Node) (node_name : String)
    (profile : Profile) (profile_name : String) (cmd_overrides : CmdOverrides) : DeployData where
  node_name := node_name
  profile_name := profile_name
  profile := profile
  merged_settings :=
    applyOverrides (resolve top_settings node.generic_settings profile.generic_settings)
      cmd_overrides

/-- The per-profile body of `push_all_profiles` (`main.rs` lines 82-93):
a merged settings record is computed locally and then `make_deploy_data`
is invoked with the unmerged `top_settings`. -/
def pushTargetData (top_settings : GenericSettings) (node : Node) (node_name : String)
    (profile : Profile) (profile_name : String) (cmd_overrides : CmdOverrides) : DeployData :=
  let merged_settings :=
    (top_settings.merge node.generic_settings).merge profile.generic_settings
  make_deploy_data top_settings node node_name profile profile_name cmd_overrides

/-- The per-profile body of `deploy_all_profiles` (`main.rs` lines
134-145): the same locally merged record, again followed by a
`make_deploy_data` call on the unmerged `top_settings`. -/
def deployTargetData (top_settings : GenericSettings) (node : Node) (node_name : String)
    (profile : Profile) (profile_name : String) (cmd_overrides : CmdOverrides) : DeployData :=
  let merged_settings :=
    (top_settings.merge node.generic_settings).merge profile.generic_settings
  make_deploy_data top_settings node node_name profile profile_name cmd_overrides

/-- Most-general-wins-when-set precedence for one field: a set global
value survives; an unset global value is filled from the node when set
there; a field unset at both levels takes the profile's value. -/
def FieldPrec {α : Type} (g n p r : Option α) : Prop :=
  (∀ v, g = some v → r = some v) ∧
  (g = none → ∀ v, n = some v → r = some v) ∧
  (g = none → n = none → r = p)

theorem mergeField_fieldPrec {α : Type} (g n p : Option α) :
    FieldPrec g n p (mergeField (mergeField g n) p) := by
  refine ⟨?_, ?_, ?_⟩
  · intro v hv; subst hv; rfl
  · intro hg v hv; subst hg hv; rfl
  · intro hg hn; subst hg hn; rfl

/-- C1: the merged settings used for a target follow
most-general-wins-when-set precedence on every field: a field set in the
global record keeps its global value, a field unset globally takes the
node's value when set there, and a field unset at both levels takes the
profile's value. -/
theorem c1_resolve_most_general_wins (g n p : GenericSettings) :
    FieldPrec g.ssh_user n.ssh_user p.ssh_user (resolve g n p).ssh_user ∧
    FieldPrec g.profile_user n.profile_user p.profile_user (resolve g n p).profile_user ∧
    FieldPrec g.ssh_opts n.ssh_opts p.ssh_opts (resolve g n p).ssh_opts ∧
    FieldPrec g.fast_connection n.fast_connection p.fast_connection
      (resolve g n p).fast_connection ∧
    FieldPrec g.auto_rollback n.auto_rollback p.auto_rollback (resolve g n p).auto_rollback ∧
    FieldPrec g.hostname n.hostname p.hostname (resolve g n p).hostname := by
  exact ⟨mergeField_fieldPrec _ _ _, mergeField_fieldPrec _ _ _, mergeField_fieldPrec _ _ _,
    mergeField_fieldPrec _ _ _, mergeField_fieldPrec _ _ _, mergeField_fieldPrec _ _ _⟩

def gsGlobalEx : GenericSettings :=
  ⟨some "gu", none, none, none, none, none⟩

def gsNodeEx : GenericSettings :=
  ⟨some "nu", none, some "nopts", none, none, some "nhost"⟩

def gsProfileEx : GenericSettings :=
  ⟨some "pu", some "ppu", some "popts", some true, none, none⟩

/-- Witness for C1 at concrete records: the global SSH user survives the
node and profile values, the node's SSH options fill the globally unset
field, and the profile user comes from the profile record since both
more general levels leave it unset. -/
theorem c1_resolve_most_general_wins_witness :
    (resolve gsGlobalEx gsNodeEx gsProfileEx).ssh_user = some "gu" ∧
    (resolve gsGlobalEx gsNodeEx gsProfileEx).ssh_opts = some "nopts" ∧
    (resolve gsGlobalEx gsNodeEx gsProfileEx).profile_user = some "ppu" := by
  refine ⟨?_, ?_, ?_⟩
  · exact (c1_resolve_most_general_wins gsGlobalEx gsNodeEx gsProfileEx).1.1 "gu" rfl
  · exact ((c1_resolve_most_general_wins gsGlobalEx gsNodeEx gsProfileEx).2.2.1).2.1 rfl "nopts" rfl
  · exact ((c1_resolve_most_general_wins gsGlobalEx gsNodeEx gsProfileEx).2.1).2.2 rfl rfl

/-- C4: in the bodies of `push_all_profiles` and `deploy_all_profiles`
the locally merged settings record is computed and discarded:
`make_deploy_data` receives the unmerged global settings record, so the
descriptor handed to the Pusher or Deployer is exactly
`make_deploy_data` of the unmerged globals, for every target. -/
theorem c4_local_merge_discarded (top : GenericSettings) (node : Node) (node_name : String)
    (profile : Profile) (profile_name : String) (ov : CmdOverrides) :
    pushTargetData top node node_name profile profile_name ov =
      make_deploy_data top node node_name profile profile_name ov ∧
    deployTargetData top node node_name profile profile_name ov =
      make_deploy_data top node node_name profile profile_name ov :=
  ⟨rfl, rfl⟩

/-- The profile iteration list of `push_all_profiles` /
`deploy_all_profiles` (`main.rs` lines 67-74 and 119-126): start from
`profiles_order` and append every profile mapping key not already
contained in the growing list. -/
def profilesList (node : Node) : List String :=
  (node.profiles.map Prod.fst).foldl
    (fun acc k => if acc.contains k then acc else acc ++ [k]) node.profiles_order

/-- Externally visible events of one invocation: the purity gate, its
warning, the evaluator invocation, and one event per Pusher/Deployer
call (recorded with the target's node and profile name). -/
inductive Ev where
  | gate
  | warn
  | eval
  | push (node_name profile_name : String)
  | deployCall (node_name profile_name : String)
deriving Repr, DecidableEq

/-- The Pusher/Deployer oracles: `true` means the external call
succeeded. -/
abbrev Oracle := DeployData → Bool

/-- The profile loop of `push_all_profiles` (`main.rs` lines 76-105):
look the profile up (`good_panic` aborts with no event when it is
absent), build the deployment descriptor, invoke the Pusher and stop on
its failure.  Returns the event trace and the success flag. -/
def pushLoop (node : Node) (node_name : String) (top_settings : GenericSettings)
    (cmd_overrides : CmdOverrides) (pusher : Oracle) : List String → List Ev × Bool
  | [] => ([], true)
  | q :: qs =>
    match List.lookup q node.profiles with
    | none => ([], false)
    | some profile =>
      let dd := pushTargetData top_settings node node_name profile q cmd_overrides
      if pusher dd then
        let r := pushLoop node node_name top_settings cmd_overrides pusher qs
        (Ev.push node_name q :: r.1, r.2)
      else ([Ev.push node_name q], false)

/-- The function `push_all_profiles` (`main.rs` lines 56-108): iterate the ordered
profile list of the node, pushing each profile. -/
def push_all_profiles (node : Node) (node_name : String) (top_settings : GenericSettings)
    (cmd_overrides : CmdOverrides) (pusher : Oracle) : List Ev × Bool :=
  pushLoop node node_name top_settings cmd_overrides pusher (profilesList node)

/-- The profile loop of `deploy_all_profiles` (`main.rs` lines
128-150): same structure as the push loop, invoking the Deployer. -/
def deployLoop (node : Node) (node_name : String) (top_settings : GenericSettings)
    (cmd_overrides : CmdOverrides) (deployer : Oracle) : List String → List Ev × Bool
  | [] => ([], true)
  | q :: qs =>
    match List.lookup q node.profiles with
    | none => ([], false)
    | some profile =>
      let dd := deployTargetData top_settings node node_name profile q cmd_overrides
      if deployer dd then
        let r := deployLoop node node_name top_settings cmd_overrides deployer qs
        (Ev.deployCall node_name q :: r.1, r.2)
      else ([Ev.deployCall node_name q], false)

/-- The function `deploy_all_profiles` (`main.rs` lines 111-153). -/
def deploy_all_profiles (node : Node) (node_name : String) (top_settings : GenericSettings)
    (cmd_overrides : CmdOverrides) (deployer : Oracle) : List Ev × Bool :=
  deployLoop node node_name top_settings cmd_overrides deployer (profilesList node)

/-- The push phase of the all-nodes branch (`main.rs` lines 282-293):
push every node's profiles in node iteration order, aborting on the
first failure (`?`). -/
def pushPhase (top_settings : GenericSettings) (cmd_overrides : CmdOverrides)
    (pusher : Oracle) : List (String × Node) → List Ev × Bool
  | [] => ([], true)
  | (n, node) :: rest =>
    let r := push_all_profiles node n top_settings cmd_overrides pusher
    if r.2 then
      let r2 := pushPhase top_settings cmd_overrides pusher rest
      (r.1 ++ r2.1, r2.2)
    else (r.1, false)

/-- The deploy phase of the all-nodes branch (`main.rs` lines
295-298). -/
def deployPhase (top_settings : GenericSettings) (cmd_overrides : CmdOverrides)
    (deployer : Oracle) : List (String × Node) → List Ev × Bool
  | [] => ([], true)
  | (n, node) :: rest =>
    let r := deploy_all_profiles node n top_settings cmd_overrides deployer
    if r.2 then
      let r2 := deployPhase top_settings cmd_overrides deployer rest
      (r.1 ++ r2.1, r2.2)
    else (r.1, false)

/-- The function `run_deploy` (`main.rs` lines 220-306): dispatch on the optional
node and profile of the parsed flake reference.  `good_panic` aborts
are embedded as a `false` flag with no further events. -/
def run_deploy (deploy_flake : DeployFlake) (data : Data) (cmd_overrides : CmdOverrides)
    (pusher deployer : Oracle) : List Ev × Bool :=
  match deploy_flake.node, deploy_flake.profile with
  | some node_name, some profile_name =>
    match List.lookup node_name data.nodes with
    | none => ([], false)
    | some node =>
      match List.lookup profile_name node.profiles with
      | none => ([], false)
      | some profile =>
        let dd := make_deploy_data data.generic_settings node node_name profile profile_name
          cmd_overrides
        if pusher dd then
          if deployer dd then
            ([Ev.push node_name profile_name, Ev.deployCall node_name profile_name], true)
          else ([Ev.push node_name profile_name, Ev.deployCall node_name profile_name], false)
        else ([Ev.push node_name profile_name], false)
  | some node_name, none =>
    match List.lookup node_name data.nodes with
    | none => ([], false)
    | some node =>
      let r := push_all_profiles node node_name data.generic_settings cmd_overrides pusher
      if r.2 then
        let r2 := deploy_all_profiles node node_name data.generic_settings cmd_overrides deployer
        (r.1 ++ r2.1, r2.2)
      else (r.1, false)
  | none, none =>
    let r := pushPhase data.generic_settings cmd_overrides pusher data.nodes
    if r.2 then
      let r2 := deployPhase data.generic_settings cmd_overrides deployer data.nodes
      (r.1 ++ r2.1, r2.2)
    else (r.1, false)
  | none, some _ => ([], false)

/-- The target selection stage of `run_deploy` (the dispatch plus the
name lookups of `main.rs` lines 227-236, 260-264 and 300-302, with each
selected node expanded through `profilesList`): the ordered list of
(node name, profile name) pairs the run will act on, or the lookup /
configuration error aborting it. -/
def selectTargets (data : Data) : Option String → Option String →
    Except String (List (String × String))
  | some node_name, some profile_name =>
    match List.lookup node_name data.nodes with
    | none => Except.error ("No node was found named " ++ node_name)
    | some node =>
      match List.lookup profile_name node.profiles with
      | none => Except.error ("No profile was found named " ++ profile_name)
      | some _ => Except.ok [(node_name, profile_name)]
  | some node_name, none =>
    match List.lookup node_name data.nodes with
    | none => Except.error ("No node was found named " ++ node_name)
    | some node => Except.ok ((profilesList node).map (fun q => (node_name, q)))
  | none, none =>
    Except.ok (data.nodes.flatMap (fun x => (profilesList x.2).map (fun q => (x.1, q))))
  | none, some _ => Except.error "Profile provided without a node, this is not supported"

/-- The full selected target list of an all-nodes run. -/
def selTargets (data : Data) : List (String × String) :=
  data.nodes.flatMap (fun x => (profilesList x.2).map (fun q => (x.1, q)))

/-- The continuation of `main` after the purity gate (`main.rs` lines
343-355): invoke the evaluator (recorded as `Ev.eval`; `evalOk` is the
external evaluation outcome, `data` its payload) and on success run
`run_deploy`. -/
def afterGate (pre : List Ev) (deploy_flake : DeployFlake) (cmd_overrides : CmdOverrides)
    (evalOk : Bool) (data : Data) (pusher deployer : Oracle) : List Ev × Bool :=
  if evalOk then
    let r := run_deploy deploy_flake data cmd_overrides pusher deployer
    (pre ++ Ev.eval :: r.1, r.2)
  else (pre ++ [Ev.eval], false)

/-- The body of `main` from the purity gate on (`main.rs` lines 329-355): the gate
match runs once, before the evaluator; its two `good_panic` arms abort
with no further call, the `Warn` arm records a warning and proceeds,
every other combination proceeds silently. -/
def mainModel (deploy_flake : DeployFlake) (cmd_overrides : CmdOverrides) (evalOk : Bool)
    (data : Data) (pusher deployer : Oracle) : List Ev × Bool :=
  match cmd_overrides.purity, deploy_flake.node, deploy_flake.profile with
  | OverridePurity.ErrorProfile, _, none => ([Ev.gate], false)
  | OverridePurity.Error, none, _ => ([Ev.gate], false)
  | OverridePurity.Warn, none, _ =>
    afterGate [Ev.gate, Ev.warn] deploy_flake cmd_overrides evalOk data pusher deployer
  | _, _, _ => afterGate [Ev.gate] deploy_flake cmd_overrides evalOk data pusher deployer

/-- Break a character list at the first occurrence of `c` (the
`find`-and-slice step of the flake reference parser). -/
def breakFirst (c : Char) : List Char → Option (List Char × List Char)
  | [] => none
  | x :: xs =>
    if x = c then some ([], xs)
    else
      match breakFirst c xs with
      | none => none
      | some (a, b) => some (x :: a, b)

/-- Split a character list on every occurrence of `c`. -/
def splitOnChar (c : Char) : List Char → List (List Char)
  | [] => [[]]
  | x :: xs =>
    let r := splitOnChar c xs
    if x = c then [] :: r
    else
      match r with
      | [] => [[x]]
      | y :: ys => (x :: y) :: ys

/-- Modelled from the spec: `utils::parse_flake` lives in the missing
`utils` module.  Per the spec it splits `repo`, `repo#node` or
`repo#node.profile` at the first `#` and then at the `.`, and fails
exactly on malformed syntax: more than one `.` after `#`, or an empty
node or profile segment. -/
def parse_flake (flake : String) : Except String DeployFlake :=
  match breakFirst '#' flake.toList with
  | none => Except.ok ⟨flake, none, none⟩
  | some (repo, fragment) =>
    match splitOnChar '.' fragment with
    | [n] =>
      if n = [] then Except.error "empty node segment in flake reference"
      else Except.ok ⟨String.mk repo, some (String.mk n), none⟩
    | [n, p] =>
      if n = [] then Except.error "empty node segment in flake reference"
      else if p = [] then Except.error "empty profile segment in flake reference"
      else Except.ok ⟨String.mk repo, some (String.mk n), some (String.mk p)⟩
    | _ => Except.error "more than one dot after the hash in flake reference"

/-- The Pusher-call targets of an event trace, in order. -/
def pushSeq (tr : List Ev) : List (String × String) :=
  tr.filterMap (fun e =>
    match e with
    | Ev.push n p => some (n, p)
    | _ => none)

/-- The Deployer-call targets of an event trace, in order. -/
def deploySeq (tr : List Ev) : List (String × String) :=
  tr.filterMap (fun e =>
    match e with
    | Ev.deployCall n p => some (n, p)
    | _ => none)

/-- Whether a profile name can be looked up in the node's profile
mapping (the `good_panic` guard of the loops). -/
def profOkB (node : Node) (q : String) : Bool :=
  (List.lookup q node.profiles).isSome

/-- Whether the Pusher succeeds on the name's target (false when the
name cannot even be looked up). -/
def pushOkB (top_settings : GenericSettings) (cmd_overrides : CmdOverrides) (pusher : Oracle)
    (node : Node) (node_name : String) (q : String) : Bool :=
  match List.lookup q node.profiles with
  | none => false
  | some profile =>
    pusher (pushTargetData top_settings node node_name profile q cmd_overrides)

/-- Whether the Deployer succeeds on the name's target. -/
def deployOkB (top_settings : GenericSettings) (cmd_overrides : CmdOverrides) (deployer : Oracle)
    (node : Node) (node_name : String) (q : String) : Bool :=
  match List.lookup q node.profiles with
  | none => false
  | some profile =>
    deployer (deployTargetData top_settings node node_name profile q cmd_overrides)

/-- Fail-fast visit sequence, written from the claim's wording: names
are visited in order; a name that cannot be looked up aborts before any
external call; a name whose external call fails is the last one
visited; nothing after the first failure is visited. -/
def specAttempted (lookOk pOk : String → Bool) : List String → List String
  | [] => []
  | q :: qs =>
    if lookOk q then
      (if pOk q then q :: specAttempted lookOk pOk qs else [q])
    else []

/-- Fail-fast visit sequence over whole nodes, written from the claim's
wording: each node's profiles are visited in order; a failure inside a
node ends the whole sequence. -/
def specAttemptedNodes (top_settings : GenericSettings) (cmd_overrides : CmdOverrides)
    (pusher : Oracle) : List (String × Node) → List (String × String)
  | [] => []
  | (n, node) :: rest =>
    let a := (specAttempted (profOkB node) (pushOkB top_settings cmd_overrides pusher node n)
      (profilesList node)).map (fun q => (n, q))
    if (profilesList node).all (pushOkB top_settings cmd_overrides pusher node n) then
      a ++ specAttemptedNodes top_settings cmd_overrides pusher rest
    else a

/-- The Pusher-call targets an all-nodes run attempts, per the claim's
fail-fast reading. -/
def specAttemptedTargets (data : Data) (cmd_overrides : CmdOverrides) (pusher : Oracle) :
    List (String × String) :=
  specAttemptedNodes data.generic_settings cmd_overrides pusher data.nodes

/-- Deploy-phase counterpart of `specAttemptedNodes`. -/
def specAttemptedDeployNodes (top_settings : GenericSettings) (cmd_overrides : CmdOverrides)
    (deployer : Oracle) : List (String × Node) → List (String × String)
  | [] => []
  | (n, node) :: rest =>
    let a := (specAttempted (profOkB node) (deployOkB top_settings cmd_overrides deployer node n)
      (profilesList node)).map (fun q => (n, q))
    if (profilesList node).all (deployOkB top_settings cmd_overrides deployer node n) then
      a ++ specAttemptedDeployNodes top_settings cmd_overrides deployer rest
    else a

theorem pushLoop_fst (node : Node) (n : String) (top : GenericSettings) (ov : CmdOverrides)
    (pu : Oracle) : ∀ qs : List String,
    (pushLoop node n top ov pu qs).1 =
      (specAttempted (profOkB node) (pushOkB top ov pu node n) qs).map (fun q => Ev.push n q)
  | [] => rfl
  | q :: qs => by
    cases h : List.lookup q node.profiles with
    | none => simp [pushLoop, specAttempted, profOkB, h]
    | some profile =>
      cases hd : pu (pushTargetData top node n profile q ov) with
      | false => simp [pushLoop, specAttempted, profOkB, pushOkB, h, hd]
      | true =>
        simp [pushLoop, specAttempted, profOkB, pushOkB, h, hd]
        exact pushLoop_fst node n top ov pu qs

theorem pushLoop_snd (node : Node) (n : String) (top : GenericSettings) (ov : CmdOverrides)
    (pu : Oracle) : ∀ qs : List String,
    (pushLoop node n top ov pu qs).2 = qs.all (pushOkB top ov pu node n)
  | [] => rfl
  | q :: qs => by
    cases h : List.lookup q node.profiles with
    | none => simp [pushLoop, pushOkB, h]
    | some profile =>
      cases hd : pu (pushTargetData top node n profile q ov) with
      | false => simp [pushLoop, pushOkB, h, hd]
      | true =>
        simp [pushLoop, pushOkB, h, hd]
        exact pushLoop_snd node n top ov pu qs

theorem deployLoop_fst (node : Node) (n : String) (top : GenericSettings) (ov : CmdOverrides)
    (de : Oracle) : ∀ qs : List String,
    (deployLoop node n top ov de qs).1 =
      (specAttempted (profOkB node) (deployOkB top ov de node n) qs).map
        (fun q => Ev.deployCall n q)
  | [] => rfl
  | q :: qs => by
    cases h : List.lookup q node.profiles with
    | none => simp [deployLoop, specAttempted, profOkB, h]
    | some profile =>
      cases hd : de (deployTargetData top node n profile q ov) with
      | false => simp [deployLoop, specAttempted, profOkB, deployOkB, h, hd]
      | true =>
        simp [deployLoop, specAttempted, profOkB, deployOkB, h, hd]
        exact deployLoop_fst node n top ov de qs

theorem deployLoop_snd (node : Node) (n : String) (top : GenericSettings) (ov : CmdOverrides)
    (de : Oracle) : ∀ qs : List String,
    (deployLoop node n top ov de qs).2 = qs.all (deployOkB top ov de node n)
  | [] => rfl
  | q :: qs => by
    cases h : List.lookup q node.profiles with
    | none => simp [deployLoop, deployOkB, h]
    | some profile =>
      cases hd : de (deployTargetData top node n profile q ov) with
      | false => simp [deployLoop, deployOkB, h, hd]
      | true =>
        simp [deployLoop, deployOkB, h, hd]
        exact deployLoop_snd node n top ov de qs

theorem pushOkB_profOk {top : GenericSettings} {ov : CmdOverrides} {pu : Oracle} {node : Node}
    {n q : String} (h : pushOkB top ov pu node n q = true) : profOkB node q = true := by
  unfold pushOkB at h
  unfold profOkB
  cases hl : List.lookup q node.profiles with
  | none => rw [hl] at h; exact absurd h (by simp)
  | some profile => rfl

theorem deployOkB_profOk {top : GenericSettings} {ov : CmdOverrides} {de : Oracle} {node : Node}
    {n q : String} (h : deployOkB top ov de node n q = true) : profOkB node q = true := by
  unfold deployOkB at h
  unfold profOkB
  cases hl : List.lookup q node.profiles with
  | none => rw [hl] at h; exact absurd h (by simp)
  | some profile => rfl

theorem specAttempted_of_all {lookOk pOk : String → Bool}
    (himp : ∀ q, pOk q = true → lookOk q = true) :
    ∀ qs : List String, qs.all pOk = true → specAttempted lookOk pOk qs = qs
  | [], _ => rfl
  | q :: qs, h => by
    rw [List.all_cons, Bool.and_eq_true] at h
    simp [specAttempted, himp q h.1, h.1, specAttempted_of_all himp qs h.2]

theorem specAttempted_isPre (lookOk pOk : String → Bool) :
    ∀ qs : List String, specAttempted lookOk pOk qs <+: qs
  | [] => List.nil_prefix
  | q :: qs => by
    by_cases hl : lookOk q
    · by_cases hp : pOk q
      · obtain ⟨t, ht⟩ := specAttempted_isPre lookOk pOk qs
        exact ⟨t, by simp [specAttempted, hl, hp, ht]⟩
      · exact ⟨qs, by simp [specAttempted, hl, hp]⟩
    · exact ⟨q :: qs, by simp [specAttempted, hl]⟩

theorem pushPhase_fst (top : GenericSettings) (ov : CmdOverrides) (pu : Oracle) :
    ∀ nodes : List (String × Node),
    (pushPhase top ov pu nodes).1 =
      (specAttemptedNodes top ov pu nodes).map (fun t => Ev.push t.1 t.2)
  | [] => rfl
  | (n, node) :: rest => by
    cases hflag : (profilesList node).all (pushOkB top ov pu node n) with
    | true =>
      simp only [pushPhase, specAttemptedNodes, push_all_profiles,
        pushLoop_snd node n top ov pu (profilesList node), hflag, if_true,
        pushLoop_fst node n top ov pu (profilesList node),
        pushPhase_fst top ov pu rest, List.map_append, List.map_map]
      rfl
    | false =>
      simp only [pushPhase, specAttemptedNodes, push_all_profiles,
        pushLoop_snd node n top ov pu (profilesList node), hflag, if_false, Bool.false_eq_true,
        pushLoop_fst node n top ov pu (profilesList node), List.map_map]
      rfl

theorem pushPhase_snd (top : GenericSettings) (ov : CmdOverrides) (pu : Oracle) :
    ∀ nodes : List (String × Node),
    (pushPhase top ov pu nodes).2 =
      nodes.all (fun x => (profilesList x.2).all (pushOkB top ov pu x.2 x.1))
  | [] => rfl
  | (n, node) :: rest => by
    cases hflag : (profilesList node).all (pushOkB top ov pu node n) with
    | true =>
      simp [pushPhase, push_all_profiles, pushLoop_snd node n top ov pu (profilesList node),
        hflag, pushPhase_snd top ov pu rest]
    | false =>
      simp [pushPhase, push_all_profiles, pushLoop_snd node n top ov pu (profilesList node),
        hflag]

theorem deployPhase_fst (top : GenericSettings) (ov : CmdOverrides) (de : Oracle) :
    ∀ nodes : List (String × Node),
    (deployPhase top ov de nodes).1 =
      (specAttemptedDeployNodes top ov de nodes).map (fun t => Ev.deployCall t.1 t.2)
  | [] => rfl
  | (n, node) :: rest => by
    cases hflag : (profilesList node).all (deployOkB top ov de node n) with
    | true =>
      simp only [deployPhase, specAttemptedDeployNodes, deploy_all_profiles,
        deployLoop_snd node n top ov de (profilesList node), hflag, if_true,
        deployLoop_fst node n top ov de (profilesList node),
        deployPhase_fst top ov de rest, List.map_append, List.map_map]
      rfl
    | false =>
      simp only [deployPhase, specAttemptedDeployNodes, deploy_all_profiles,
        deployLoop_snd node n top ov de (profilesList node), hflag, if_false,
        Bool.false_eq_true, deployLoop_fst node n top ov de (profilesList node), List.map_map]
      rfl

theorem deployPhase_snd (top : GenericSettings) (ov : CmdOverrides) (de : Oracle) :
    ∀ nodes : List (String × Node),
    (deployPhase top ov de nodes).2 =
      nodes.all (fun x => (profilesList x.2).all (deployOkB top ov de x.2 x.1))
  | [] => rfl
  | (n, node) :: rest => by
    cases hflag : (profilesList node).all (deployOkB top ov de node n) with
    | true =>
      simp [deployPhase, deploy_all_profiles,
        deployLoop_snd node n top ov de (profilesList node), hflag,
        deployPhase_snd top ov de rest]
    | false =>
      simp [deployPhase, deploy_all_profiles,
        deployLoop_snd node n top ov de (profilesList node), hflag]

/-- The flattened target list of a list of nodes. -/
def nodesTargets (nodes : List (String × Node)) : List (String × String) :=
  nodes.flatMap (fun x => (profilesList x.2).map (fun q => (x.1, q)))

theorem specAttemptedNodes_isPre (top : GenericSettings) (ov : CmdOverrides) (pu : Oracle) :
    ∀ nodes : List (String × Node),
    specAttemptedNodes top ov pu nodes <+: nodesTargets nodes
  | [] => List.nil_prefix
  | (n, node) :: rest => by
    cases hflag : (profilesList node).all (pushOkB top ov pu node n) with
    | true =>
      have hfull : specAttempted (profOkB node) (pushOkB top ov pu node n)
          (profilesList node) = profilesList node :=
        specAttempted_of_all (fun q h => pushOkB_profOk h) _ hflag
      simp only [specAttemptedNodes, nodesTargets, List.flatMap_cons, hflag, if_true, hfull]
      obtain ⟨t, ht⟩ := specAttemptedNodes_isPre top ov pu rest
      exact ⟨t, by rw [List.append_assoc, ht]; simp [nodesTargets]⟩
    | false =>
      simp only [specAttemptedNodes, nodesTargets, List.flatMap_cons, hflag, if_false,
        Bool.false_eq_true]
      obtain ⟨t, ht⟩ := (specAttempted_isPre (profOkB node)
        (pushOkB top ov pu node n) (profilesList node)).map (fun q => (n, q))
      exact ⟨t ++ nodesTargets rest, by rw [← List.append_assoc, ht]; simp [nodesTargets]⟩

theorem specAttemptedNodes_of_all (top : GenericSettings) (ov : CmdOverrides) (pu : Oracle) :
    ∀ nodes : List (String × Node),
    nodes.all (fun x => (profilesList x.2).all (pushOkB top ov pu x.2 x.1)) = true →
    specAttemptedNodes top ov pu nodes = nodesTargets nodes
  | [], _ => rfl
  | (n, node) :: rest, h => by
    rw [List.all_cons, Bool.and_eq_true] at h
    have hfull : specAttempted (profOkB node) (pushOkB top ov pu node n)
        (profilesList node) = profilesList node :=
      specAttempted_of_all (fun q hq => pushOkB_profOk hq) _ h.1
    simp only [specAttemptedNodes, nodesTargets, List.flatMap_cons, h.1, if_true, hfull,
      specAttemptedNodes_of_all top ov pu rest h.2]

theorem specAttemptedDeployNodes_isPre (top : GenericSettings) (ov : CmdOverrides)
    (de : Oracle) : ∀ nodes : List (String × Node),
    specAttemptedDeployNodes top ov de nodes <+: nodesTargets nodes
  | [] => List.nil_prefix
  | (n, node) :: rest => by
    cases hflag : (profilesList node).all (deployOkB top ov de node n) with
    | true =>
      have hfull : specAttempted (profOkB node) (deployOkB top ov de node n)
          (profilesList node) = profilesList node :=
        specAttempted_of_all (fun q h => deployOkB_profOk h) _ hflag
      simp only [specAttemptedDeployNodes, nodesTargets, List.flatMap_cons, hflag, if_true, hfull]
      obtain ⟨t, ht⟩ := specAttemptedDeployNodes_isPre top ov de rest
      exact ⟨t, by rw [List.append_assoc, ht]; simp [nodesTargets]⟩
    | false =>
      simp only [specAttemptedDeployNodes, nodesTargets, List.flatMap_cons, hflag, if_false,
        Bool.false_eq_true]
      obtain ⟨t, ht⟩ := (specAttempted_isPre (profOkB node)
        (deployOkB top ov de node n) (profilesList node)).map (fun q => (n, q))
      exact ⟨t ++ nodesTargets rest, by rw [← List.append_assoc, ht]; simp [nodesTargets]⟩

theorem specAttemptedDeployNodes_of_all (top : GenericSettings) (ov : CmdOverrides)
    (de : Oracle) : ∀ nodes : List (String × Node),
    nodes.all (fun x => (profilesList x.2).all (deployOkB top ov de x.2 x.1)) = true →
    specAttemptedDeployNodes top ov de nodes = nodesTargets nodes
  | [], _ => rfl
  | (n, node) :: rest, h => by
    rw [List.all_cons, Bool.and_eq_true] at h
    have hfull : specAttempted (profOkB node) (deployOkB top ov de node n)
        (profilesList node) = profilesList node :=
      specAttempted_of_all (fun q hq => deployOkB_profOk hq) _ h.1
    simp only [specAttemptedDeployNodes, nodesTargets, List.flatMap_cons, h.1, if_true, hfull,
      specAttemptedDeployNodes_of_all top ov de rest h.2]

theorem pushSeq_append (a b : List Ev) : pushSeq (a ++ b) = pushSeq a ++ pushSeq b :=
  List.filterMap_append a b _

theorem deploySeq_append (a b : List Ev) : deploySeq (a ++ b) = deploySeq a ++ deploySeq b :=
  List.filterMap_append a b _

theorem pushSeq_pushMap (ts : List (String × String)) :
    pushSeq (ts.map (fun t => Ev.push t.1 t.2)) = ts := by
  induction ts with
  | nil => rfl
  | cons t ts ih => simpa [pushSeq, List.filterMap_cons] using ih

theorem deploySeq_pushMap (ts : List (String × String)) :
    deploySeq (ts.map (fun t => Ev.push t.1 t.2)) = [] := by
  induction ts with
  | nil => rfl
  | cons t ts ih => simp [deploySeq, List.filterMap_cons, ih]

theorem pushSeq_deployMap (ts : List (String × String)) :
    pushSeq (ts.map (fun t => Ev.deployCall t.1 t.2)) = [] := by
  induction ts with
  | nil => rfl
  | cons t ts ih => simp [pushSeq, List.filterMap_cons, ih]

theorem deploySeq_deployMap (ts : List (String × String)) :
    deploySeq (ts.map (fun t => Ev.deployCall t.1 t.2)) = ts := by
  induction ts with
  | nil => rfl
  | cons t ts ih => simpa [deploySeq, List.filterMap_cons] using ih

theorem lookup_isSome_of_mem_keys {β : Type} (l : List (String × β)) (q : String)
    (h : q ∈ l.map Prod.fst) : (List.lookup q l).isSome = true := by
  induction l with
  | nil => simp at h
  | cons kv rest ih =>
    cases kv with
    | mk k v =>
      by_cases he : q = k
      · subst he; simp [List.lookup]
      · have hb : (q == k) = false := beq_eq_false_iff_ne.mpr he
        rw [List.map_cons, List.mem_cons] at h
        rcases h with h | h
        · exact absurd h he
        · simpa [List.lookup, hb] using ih h

theorem contains_true_iff (l : List String) (a : String) : l.contains a = true ↔ a ∈ l :=
  List.elem_iff

theorem contains_false_iff (l : List String) (a : String) : l.contains a = false ↔ a ∉ l := by
  rw [Bool.eq_false_iff]
  exact not_congr (contains_true_iff l a)

theorem foldlAdd_mono (ks : List String) : ∀ (acc : List String) (x : String), x ∈ acc →
    x ∈ ks.foldl (fun acc k => if acc.contains k then acc else acc ++ [k]) acc := by
  induction ks with
  | nil => intro acc x hx; exact hx
  | cons k ks ih =>
    intro acc x hx
    rw [List.foldl_cons]
    by_cases hc : acc.contains k = true
    · rw [if_pos hc]; exact ih acc x hx
    · rw [if_neg hc]; exact ih (acc ++ [k]) x (List.mem_append_left _ hx)

theorem foldlAdd_mem_inv (ks : List String) : ∀ (acc : List String) (x : String),
    x ∈ ks.foldl (fun acc k => if acc.contains k then acc else acc ++ [k]) acc →
    x ∈ acc ∨ x ∈ ks := by
  induction ks with
  | nil => intro acc x hx; exact Or.inl hx
  | cons k ks ih =>
    intro acc x hx
    rw [List.foldl_cons] at hx
    by_cases hc : acc.contains k = true
    · rw [if_pos hc] at hx
      rcases ih acc x hx with h | h
      · exact Or.inl h
      · exact Or.inr (List.mem_cons_of_mem k h)
    · rw [if_neg hc] at hx
      rcases ih (acc ++ [k]) x hx with h | h
      · rcases List.mem_append.mp h with h | h
        · exact Or.inl h
        · exact Or.inr (List.mem_cons.mpr (Or.inl (List.mem_singleton.mp h)))
      · exact Or.inr (List.mem_cons_of_mem k h)

theorem foldlAdd_mem_key (ks : List String) : ∀ (acc : List String) (x : String), x ∈ ks →
    x ∈ ks.foldl (fun acc k => if acc.contains k then acc else acc ++ [k]) acc := by
  induction ks with
  | nil => intro acc x hx; simp at hx
  | cons k ks ih =>
    intro acc x hx
    rw [List.foldl_cons]
    rcases List.mem_cons.mp hx with hx | hx
    · subst hx
      by_cases hc : acc.contains x = true
      · rw [if_pos hc]
        exact foldlAdd_mono ks acc x ((contains_true_iff acc x).mp hc)
      · rw [if_neg hc]
        exact foldlAdd_mono ks (acc ++ [x]) x
          (List.mem_append_right acc (List.mem_singleton.mpr rfl))
    · by_cases hc : acc.contains k = true
      · rw [if_pos hc]; exact ih acc x hx
      · rw [if_neg hc]; exact ih (acc ++ [k]) x hx

theorem foldlAdd_decomp (ks : List String) : ∀ acc : List String, ∃ rest : List String,
    ks.foldl (fun acc k => if acc.contains k then acc else acc ++ [k]) acc = acc ++ rest ∧
    ∀ x ∈ rest, x ∉ acc := by
  induction ks with
  | nil => intro acc; exact ⟨[], by simp⟩
  | cons k ks ih =>
    intro acc
    rw [List.foldl_cons]
    by_cases hc : acc.contains k = true
    · rw [if_pos hc]; exact ih acc
    · rw [if_neg hc]
      obtain ⟨rest, hrest, hnot⟩ := ih (acc ++ [k])
      refine ⟨k :: rest, ?_, ?_⟩
      · rw [hrest, List.append_assoc, List.singleton_append]
      · intro x hx
        rcases List.mem_cons.mp hx with hx | hx
        · subst hx
          exact (contains_false_iff acc x).mp (Bool.eq_false_iff.mpr hc)
        · intro hmem
          exact hnot x hx (List.mem_append_left _ hmem)

theorem foldlAdd_nodup (ks : List String) : ∀ acc : List String, ks.Nodup →
    ks.foldl (fun acc k => if acc.contains k then acc else acc ++ [k]) acc =
      acc ++ ks.filter (fun k => !acc.contains k) := by
  induction ks with
  | nil => intro acc _; simp
  | cons k ks ih =>
    intro acc hnd
    rw [List.nodup_cons] at hnd
    rw [List.foldl_cons, List.filter_cons]
    by_cases hc : acc.contains k = true
    · rw [if_pos hc, ih acc hnd.2]
      have hcond : (!acc.contains k) = false := by rw [hc]; rfl
      rw [hcond]
      rfl
    · have hcf : acc.contains k = false := Bool.eq_false_iff.mpr hc
      rw [if_neg hc, ih (acc ++ [k]) hnd.2]
      have hfeq : ks.filter (fun j => !(acc ++ [k]).contains j) =
          ks.filter (fun j => !acc.contains j) := by
        apply List.filter_congr
        intro j hj
        have hjk : j ≠ k := fun h => hnd.1 (h ▸ hj)
        by_cases hja : j ∈ acc
        · have h1 : (acc ++ [k]).contains j = true :=
            (contains_true_iff _ j).mpr (List.mem_append_left _ hja)
          have h2 : acc.contains j = true := (contains_true_iff acc j).mpr hja
          rw [h1, h2]
        · have h1 : (acc ++ [k]).contains j = false := by
            rw [contains_false_iff]
            intro hcon
            rcases List.mem_append.mp hcon with h | h
            · exact hja h
            · exact hjk (List.mem_singleton.mp h)
          have h2 : acc.contains j = false := (contains_false_iff acc j).mpr hja
          rw [h1, h2]
      have hcond : (!acc.contains k) = true := by rw [hcf]; rfl
      rw [hcond, if_pos rfl, hfeq, List.append_assoc, List.singleton_append]

theorem profilesList_decomp (node : Node) : ∃ rest : List String,
    profilesList node = node.profiles_order ++ rest ∧
    ∀ x ∈ rest, x ∉ node.profiles_order ∧ x ∈ node.profiles.map Prod.fst := by
  obtain ⟨rest, hrest, hnot⟩ := foldlAdd_decomp (node.profiles.map Prod.fst)
    node.profiles_order
  refine ⟨rest, hrest, fun x hx => ⟨hnot x hx, ?_⟩⟩
  have hx' : x ∈ profilesList node := by
    rw [profilesList, hrest]; exact List.mem_append_right _ hx
  rcases foldlAdd_mem_inv (node.profiles.map Prod.fst) node.profiles_order x hx' with h | h
  · exact absurd h (hnot x hx)
  · exact h

theorem profilesList_char (node : Node)
    (hnodup : (node.profiles.map Prod.fst).Nodup) :
    profilesList node = node.profiles_order ++
      (node.profiles.map Prod.fst).filter (fun k => !node.profiles_order.contains k) :=
  foldlAdd_nodup (node.profiles.map Prod.fst) node.profiles_order hnodup

theorem order_sub_profilesList (node : Node) (q : String) (h : q ∈ node.profiles_order) :
    q ∈ profilesList node :=
  foldlAdd_mono (node.profiles.map Prod.fst) node.profiles_order q h

theorem keys_sub_profilesList (node : Node) (q : String)
    (h : q ∈ node.profiles.map Prod.fst) : q ∈ profilesList node :=
  foldlAdd_mem_key (node.profiles.map Prod.fst) node.profiles_order q h

theorem mem_profilesList_lookup (node : Node)
    (horder : ∀ q ∈ node.profiles_order, (List.lookup q node.profiles).isSome = true) :
    ∀ q ∈ profilesList node, (List.lookup q node.profiles).isSome = true := by
  intro q hq
  rcases foldlAdd_mem_inv (node.profiles.map Prod.fst) node.profiles_order q hq with h | h
  · exact horder q h
  · exact lookup_isSome_of_mem_keys node.profiles q h

theorem run_deploy_all_eq_t (repo : String) (data : Data) (ov : CmdOverrides)
    (pusher deployer : Oracle)
    (h : (pushPhase data.generic_settings ov pusher data.nodes).2 = true) :
    run_deploy ⟨repo, none, none⟩ data ov pusher deployer =
      ((pushPhase data.generic_settings ov pusher data.nodes).1 ++
        (deployPhase data.generic_settings ov deployer data.nodes).1,
       (deployPhase data.generic_settings ov deployer data.nodes).2) := by
  unfold run_deploy
  simp only [h, if_true]

theorem run_deploy_all_eq_f (repo : String) (data : Data) (ov : CmdOverrides)
    (pusher deployer : Oracle)
    (h : (pushPhase data.generic_settings ov pusher data.nodes).2 = false) :
    run_deploy ⟨repo, none, none⟩ data ov pusher deployer =
      ((pushPhase data.generic_settings ov pusher data.nodes).1, false) := by
  unfold run_deploy
  simp only [h, Bool.false_eq_true, if_false]

/-- C2: two-phase fail-fast orchestration over all nodes.  The Pusher
calls made are exactly the claim-side fail-fast visit sequence (so after
a failing push nothing later is pushed, and the failing target's push is
the last push made); the Deployer-call sequence is always an initial
segment of the Pusher-call sequence; if any Deployer call happens at all
then the push phase completed successfully over the entire selected
target list; if the push phase did not fully succeed no Deployer call
happens; and on overall success both phases visited exactly the selected
target list in the same order. -/
theorem c2_two_phase_fail_fast (repo : String) (data : Data) (ov : CmdOverrides)
    (pusher deployer : Oracle) :
    pushSeq (run_deploy ⟨repo, none, none⟩ data ov pusher deployer).1 =
      specAttemptedTargets data ov pusher ∧
    deploySeq (run_deploy ⟨repo, none, none⟩ data ov pusher deployer).1 <+:
      pushSeq (run_deploy ⟨repo, none, none⟩ data ov pusher deployer).1 ∧
    ((pushPhase data.generic_settings ov pusher data.nodes).2 = false →
      deploySeq (run_deploy ⟨repo, none, none⟩ data ov pusher deployer).1 = []) ∧
    (deploySeq (run_deploy ⟨repo, none, none⟩ data ov pusher deployer).1 ≠ [] →
      (pushPhase data.generic_settings ov pusher data.nodes).2 = true ∧
      pushSeq (run_deploy ⟨repo, none, none⟩ data ov pusher deployer).1 = selTargets data) ∧
    ((run_deploy ⟨repo, none, none⟩ data ov pusher deployer).2 = true →
      pushSeq (run_deploy ⟨repo, none, none⟩ data ov pusher deployer).1 = selTargets data ∧
      deploySeq (run_deploy ⟨repo, none, none⟩ data ov pusher deployer).1 =
        selTargets data) := by
  cases hflag : (pushPhase data.generic_settings ov pusher data.nodes).2 with
  | false =>
    rw [run_deploy_all_eq_f repo data ov pusher deployer hflag]
    have hps : pushSeq (pushPhase data.generic_settings ov pusher data.nodes).1 =
        specAttemptedNodes data.generic_settings ov pusher data.nodes := by
      rw [pushPhase_fst, pushSeq_pushMap]
    have hds : deploySeq (pushPhase data.generic_settings ov pusher data.nodes).1 = [] := by
      rw [pushPhase_fst, deploySeq_pushMap]
    refine ⟨hps, ?_, fun _ => hds, fun hne => absurd hds hne, fun habs => ?_⟩
    · rw [hds]; exact List.nil_prefix
    · exact absurd habs (by simp)
  | true =>
    rw [run_deploy_all_eq_t repo data ov pusher deployer hflag]
    rw [pushPhase_snd] at hflag
    have hfull : specAttemptedNodes data.generic_settings ov pusher data.nodes =
        nodesTargets data.nodes :=
      specAttemptedNodes_of_all data.generic_settings ov pusher data.nodes hflag
    have hps : pushSeq ((pushPhase data.generic_settings ov pusher data.nodes).1 ++
        (deployPhase data.generic_settings ov deployer data.nodes).1) =
        nodesTargets data.nodes := by
      rw [pushSeq_append, pushPhase_fst, pushSeq_pushMap, deployPhase_fst, pushSeq_deployMap,
        List.append_nil, hfull]
    have hds : deploySeq ((pushPhase data.generic_settings ov pusher data.nodes).1 ++
        (deployPhase data.generic_settings ov deployer data.nodes).1) =
        specAttemptedDeployNodes data.generic_settings ov deployer data.nodes := by
      rw [deploySeq_append, pushPhase_fst, deploySeq_pushMap, deployPhase_fst,
        deploySeq_deployMap, List.nil_append]
    have hsel : selTargets data = nodesTargets data.nodes := rfl
    refine ⟨?_, ?_, ?_, ?_, ?_⟩
    · rw [hps, specAttemptedTargets, hfull]
    · rw [hps, hds]
      exact specAttemptedDeployNodes_isPre data.generic_settings ov deployer data.nodes
    · intro habs; exact absurd habs (by simp)
    · intro _; exact ⟨rfl, by rw [hps, hsel]⟩
    · intro hdp
      refine ⟨by rw [hps, hsel], ?_⟩
      rw [hds, hsel]
      exact specAttemptedDeployNodes_of_all data.generic_settings ov deployer data.nodes
        (by rw [← deployPhase_snd]; exact hdp)

/-- A settings record with every field unset. -/
def gsEmpty : GenericSettings := ⟨none, none, none, none, none, none⟩

/-- An overrides record with every field unset. -/
def ovEmpty : CmdOverrides := ⟨none, none, none, none, none, none⟩

/-- A profile with empty settings and the given payload. -/
def profEx (s : String) : Profile := ⟨gsEmpty, s⟩

/-- A node carrying exactly one profile and no explicit order. -/
def nodeSingle (p : String) : Node := ⟨[(p, profEx p)], [], gsEmpty⟩

/-- Three nodes `a`, `b`, `c` with one profile each. -/
def data3Ex : Data :=
  ⟨gsEmpty, [("a", nodeSingle "pa"), ("b", nodeSingle "pb"), ("c", nodeSingle "pc")]⟩

/-- A Pusher/Deployer oracle that always succeeds. -/
def oracleTrue : Oracle := fun _ => true

/-- A Pusher oracle that fails exactly on node `b`. -/
def pusherFailB : Oracle := fun dd => !(dd.node_name == "b")

/-- Witness for C2: on a fully successful three-node run the Deployer
visits exactly the selected target list; and when the second node's push
fails, the Pusher is invoked for nodes `a` and `b` only (never for `c`)
and the Deployer is never invoked. -/
theorem c2_two_phase_fail_fast_witness :
    deploySeq (run_deploy ⟨".", none, none⟩ data3Ex ovEmpty oracleTrue oracleTrue).1 =
      [("a", "pa"), ("b", "pb"), ("c", "pc")] ∧
    pushSeq (run_deploy ⟨".", none, none⟩ data3Ex ovEmpty pusherFailB oracleTrue).1 =
      [("a", "pa"), ("b", "pb")] ∧
    deploySeq (run_deploy ⟨".", none, none⟩ data3Ex ovEmpty pusherFailB oracleTrue).1 = [] := by
  refine ⟨?_, ?_, ?_⟩
  · have h := ((c2_two_phase_fail_fast "." data3Ex ovEmpty oracleTrue oracleTrue).2.2.2.2
      (by decide)).2
    rw [h]; decide
  · have h := (c2_two_phase_fail_fast "." data3Ex ovEmpty pusherFailB oracleTrue).1
    rw [h]; decide
  · exact (c2_two_phase_fail_fast "." data3Ex ovEmpty pusherFailB oracleTrue).2.2.1 (by decide)

/-- C6: a profile given without a node is rejected unconditionally: the
selection stage reports the configuration error, and the run makes no
Pusher or Deployer call and fails, for every deployment data, override
record and oracle pair. -/
theorem c6_profile_without_node (repo p : String) (data : Data) (ov : CmdOverrides)
    (pusher deployer : Oracle) :
    run_deploy ⟨repo, none, some p⟩ data ov pusher deployer = ([], false) ∧
    selectTargets data none (some p) =
      Except.error "Profile provided without a node, this is not supported" :=
  ⟨rfl, rfl⟩

theorem pushOkB_true (top : GenericSettings) (ov : CmdOverrides) (node : Node)
    (n q : String) : pushOkB top ov oracleTrue node n q = (List.lookup q node.profiles).isSome := by
  unfold pushOkB oracleTrue
  cases List.lookup q node.profiles <;> rfl

theorem deployOkB_true (top : GenericSettings) (ov : CmdOverrides) (node : Node)
    (n q : String) :
    deployOkB top ov oracleTrue node n q = (List.lookup q node.profiles).isSome := by
  unfold deployOkB oracleTrue
  cases List.lookup q node.profiles <;> rfl

theorem all_pushOkB_true (top : GenericSettings) (ov : CmdOverrides) (node : Node)
    (n : String)
    (horder : ∀ q ∈ node.profiles_order, (List.lookup q node.profiles).isSome = true) :
    (profilesList node).all (pushOkB top ov oracleTrue node n) = true :=
  List.all_eq_true.mpr fun q hq => by
    rw [pushOkB_true]
    exact mem_profilesList_lookup node horder q hq

theorem all_deployOkB_true (top : GenericSettings) (ov : CmdOverrides) (node : Node)
    (n : String)
    (horder : ∀ q ∈ node.profiles_order, (List.lookup q node.profiles).isSome = true) :
    (profilesList node).all (deployOkB top ov oracleTrue node n) = true :=
  List.all_eq_true.mpr fun q hq => by
    rw [deployOkB_true]
    exact mem_profilesList_lookup node horder q hq

theorem pushSeq_pushMapName (n : String) (l : List String) :
    pushSeq (l.map (fun q => Ev.push n q)) = l.map (fun q => (n, q)) := by
  have h : l.map (fun q => Ev.push n q) =
      (l.map (fun q => (n, q))).map (fun t => Ev.push t.1 t.2) := by
    rw [List.map_map]; rfl
  rw [h, pushSeq_pushMap]

theorem deploySeq_deployMapName (n : String) (l : List String) :
    deploySeq (l.map (fun q => Ev.deployCall n q)) = l.map (fun q => (n, q)) := by
  have h : l.map (fun q => Ev.deployCall n q) =
      (l.map (fun q => (n, q))).map (fun t => Ev.deployCall t.1 t.2) := by
    rw [List.map_map]; rfl
  rw [h, deploySeq_deployMap]

theorem push_all_seq (node : Node) (node_name : String) (top : GenericSettings)
    (ov : CmdOverrides)
    (horder : ∀ q ∈ node.profiles_order, (List.lookup q node.profiles).isSome = true) :
    pushSeq (push_all_profiles node node_name top ov oracleTrue).1 =
      (profilesList node).map (fun q => (node_name, q)) := by
  rw [push_all_profiles, pushLoop_fst,
    specAttempted_of_all (fun q hq => pushOkB_profOk hq) (profilesList node)
      (all_pushOkB_true top ov node node_name horder), pushSeq_pushMapName]

theorem deploy_all_seq (node : Node) (node_name : String) (top : GenericSettings)
    (ov : CmdOverrides)
    (horder : ∀ q ∈ node.profiles_order, (List.lookup q node.profiles).isSome = true) :
    deploySeq (deploy_all_profiles node node_name top ov oracleTrue).1 =
      (profilesList node).map (fun q => (node_name, q)) := by
  rw [deploy_all_profiles, deployLoop_fst,
    specAttempted_of_all (fun q hq => deployOkB_profOk hq) (profilesList node)
      (all_deployOkB_true top ov node node_name horder), deploySeq_deployMapName]

/-- C3: the profile sequence pushed and deployed for a node is the
entries of `profiles_order` first, in listed order, followed by the
profiles of the mapping absent from `profiles_order`, in mapping
iteration order; nothing from the mapping is appended a second time when
it already appears in `profiles_order`.  (HashMap keys are unique, hence
the `Nodup` hypothesis; the order entries must exist in the mapping for
the iteration to complete, per C8.) -/
theorem c3_profile_order (node : Node) (node_name : String) (top : GenericSettings)
    (ov : CmdOverrides)
    (hnodup : (node.profiles.map Prod.fst).Nodup)
    (horder : ∀ q ∈ node.profiles_order, (List.lookup q node.profiles).isSome = true) :
    profilesList node = node.profiles_order ++
      (node.profiles.map Prod.fst).filter (fun k => !node.profiles_order.contains k) ∧
    pushSeq (push_all_profiles node node_name top ov oracleTrue).1 =
      (profilesList node).map (fun q => (node_name, q)) ∧
    deploySeq (deploy_all_profiles node node_name top ov oracleTrue).1 =
      (profilesList node).map (fun q => (node_name, q)) :=
  ⟨profilesList_char node hnodup, push_all_seq node node_name top ov horder,
    deploy_all_seq node node_name top ov horder⟩

/-- A node with three mapped profiles of which only `y` is listed in
`profiles_order`. -/
def nodeC3Ex : Node := ⟨[("x", profEx "x"), ("y", profEx "y"), ("z", profEx "z")], ["y"], gsEmpty⟩

/-- Witness for C3: on `nodeC3Ex` the ordered entry `y` leads, then the
remaining mapped profiles `x`, `z` follow in mapping order, and the push
sequence visits exactly that list. -/
theorem c3_profile_order_witness :
    profilesList nodeC3Ex = ["y", "x", "z"] ∧
    pushSeq (push_all_profiles nodeC3Ex "n" gsEmpty ovEmpty oracleTrue).1 =
      [("n", "y"), ("n", "x"), ("n", "z")] := by
  have h := c3_profile_order nodeC3Ex "n" gsEmpty ovEmpty (by decide) (by decide)
  refine ⟨by rw [h.1]; decide, by rw [h.2.1]; decide⟩

/-- C10: duplicate entries inside `profiles_order` are not deduplicated:
the push and deploy sequences visit one entry per occurrence (the
membership check of lines 70-74 is applied only to mapping keys being
appended), so a profile occurring `k` times in `profiles_order` is
pushed and deployed `k` times. -/
theorem c10_duplicate_order_entries (node : Node) (node_name : String)
    (top : GenericSettings) (ov : CmdOverrides)
    (horder : ∀ q ∈ node.profiles_order, (List.lookup q node.profiles).isSome = true) :
    pushSeq (push_all_profiles node node_name top ov oracleTrue).1 =
      (profilesList node).map (fun q => (node_name, q)) ∧
    deploySeq (deploy_all_profiles node node_name top ov oracleTrue).1 =
      (profilesList node).map (fun q => (node_name, q)) ∧
    ∀ p ∈ node.profiles_order,
      List.count p (profilesList node) = List.count p node.profiles_order := by
  refine ⟨push_all_seq node node_name top ov horder,
    deploy_all_seq node node_name top ov horder, ?_⟩
  intro p hp
  obtain ⟨rest, hrest, hnot⟩ := profilesList_decomp node
  rw [hrest, List.count_append]
  have hzero : List.count p rest = 0 :=
    List.count_eq_zero.mpr (fun hmem => (hnot p hmem).1 hp)
  rw [hzero, Nat.add_zero]

/-- A node whose `profiles_order` lists the mapped profile `a` twice. -/
def nodeDupEx : Node := ⟨[("a", profEx "a"), ("b", profEx "b")], ["a", "a"], gsEmpty⟩

/-- Witness for C10: on `nodeDupEx` the profile `a` is pushed once per
occurrence of its two `profiles_order` entries. -/
theorem c10_duplicate_order_entries_witness :
    pushSeq (push_all_profiles nodeDupEx "n" gsEmpty ovEmpty oracleTrue).1 =
      [("n", "a"), ("n", "a"), ("n", "b")] ∧
    List.count "a" (profilesList nodeDupEx) = 2 := by
  have h := c10_duplicate_order_entries nodeDupEx "n" gsEmpty ovEmpty (by decide)
  refine ⟨by rw [h.1]; decide, ?_⟩
  have hc := h.2.2 "a" (by decide)
  rw [hc]; decide

/-- A node whose `profiles_order` references the name `ghost`, absent
from its profile mapping. -/
def ghostNodeEx : Node := ⟨[("a", profEx "a")], ["ghost"], gsEmpty⟩

/-- Counterexample to C8 as stated: a `profiles_order` entry absent from
the profile mapping is not skipped — on `ghostNodeEx` the push iteration
aborts with a failure (`good_panic` at `main.rs` line 79) before pushing
anything, although the claim predicts the entry is ignored and the run
proceeds. -/
theorem c8_counterexample :
    "ghost" ∈ ghostNodeEx.profiles_order ∧
    List.lookup "ghost" ghostNodeEx.profiles = none ∧
    (push_all_profiles ghostNodeEx "n" gsEmpty ovEmpty oracleTrue).2 = false ∧
    (push_all_profiles ghostNodeEx "n" gsEmpty ovEmpty oracleTrue).1 = [] ∧
    (deploy_all_profiles ghostNodeEx "n" gsEmpty ovEmpty oracleTrue).2 = false := by
  decide

/-- C8 amended: a profile name appearing in `profiles_order` but absent
from the node's profile mapping causes the push and deploy iterations to
fail (the lookup aborts the run), for every oracle; it is not skipped.
Only line construction (lines 67-74) tolerates the name; the per-profile
lookup (lines 76-80, 128-132) then aborts. -/
theorem c8_amended_ghost_aborts (node : Node) (node_name : String) (top : GenericSettings)
    (ov : CmdOverrides) (pusher deployer : Oracle)
    (h : ∃ q ∈ node.profiles_order, List.lookup q node.profiles = none) :
    (push_all_profiles node node_name top ov pusher).2 = false ∧
    (deploy_all_profiles node node_name top ov deployer).2 = false := by
  obtain ⟨q, hq, hnone⟩ := h
  have hmem : q ∈ profilesList node := order_sub_profilesList node q hq
  constructor
  · rw [push_all_profiles, pushLoop_snd, Bool.eq_false_iff]
    intro hall
    have hfalse := List.all_eq_true.mp hall q hmem
    unfold pushOkB at hfalse
    rw [hnone] at hfalse
    exact absurd hfalse (by simp)
  · rw [deploy_all_profiles, deployLoop_snd, Bool.eq_false_iff]
    intro hall
    have hfalse := List.all_eq_true.mp hall q hmem
    unfold deployOkB at hfalse
    rw [hnone] at hfalse
    exact absurd hfalse (by simp)

/-- Witness for the amended C8 at the concrete ghost node. -/
theorem c8_amended_ghost_aborts_witness :
    (push_all_profiles ghostNodeEx "n" gsEmpty ovEmpty oracleTrue).2 = false ∧
    (deploy_all_profiles ghostNodeEx "n" gsEmpty ovEmpty oracleTrue).2 = false :=
  c8_amended_ghost_aborts ghostNodeEx "n" gsEmpty ovEmpty oracleTrue oracleTrue
    ⟨"ghost", by decide, by decide⟩

/-- Whether an event is an external Pusher/Deployer call. -/
def Ev.isCall : Ev → Bool
  | Ev.push _ _ => true
  | Ev.deployCall _ _ => true
  | _ => false

theorem isCall_of_mem_pushMapName {e : Ev} {n : String} {l : List String}
    (h : e ∈ l.map (fun q => Ev.push n q)) : e.isCall = true := by
  obtain ⟨q, _, rfl⟩ := List.mem_map.mp h
  rfl

theorem isCall_of_mem_deployMapName {e : Ev} {n : String} {l : List String}
    (h : e ∈ l.map (fun q => Ev.deployCall n q)) : e.isCall = true := by
  obtain ⟨q, _, rfl⟩ := List.mem_map.mp h
  rfl

theorem isCall_of_mem_pushMapPair {e : Ev} {l : List (String × String)}
    (h : e ∈ l.map (fun t => Ev.push t.1 t.2)) : e.isCall = true := by
  obtain ⟨q, _, rfl⟩ := List.mem_map.mp h
  rfl

theorem isCall_of_mem_deployMapPair {e : Ev} {l : List (String × String)}
    (h : e ∈ l.map (fun t => Ev.deployCall t.1 t.2)) : e.isCall = true := by
  obtain ⟨q, _, rfl⟩ := List.mem_map.mp h
  rfl

theorem run_deploy_calls (f : DeployFlake) (d : Data) (ov : CmdOverrides)
    (pu de : Oracle) : ∀ e ∈ (run_deploy f d ov pu de).1, e.isCall = true := by
  obtain ⟨repo, fn, fp⟩ := f
  cases fn with
  | none =>
    cases fp with
    | none =>
      intro e he
      cases hflag : (pushPhase d.generic_settings ov pu d.nodes).2 with
      | false =>
        rw [run_deploy_all_eq_f repo d ov pu de hflag, pushPhase_fst] at he
        exact isCall_of_mem_pushMapPair he
      | true =>
        rw [run_deploy_all_eq_t repo d ov pu de hflag] at he
        rcases List.mem_append.mp he with h | h
        · rw [pushPhase_fst] at h
          exact isCall_of_mem_pushMapPair h
        · rw [deployPhase_fst] at h
          exact isCall_of_mem_deployMapPair h
    | some p =>
      intro e he
      simp only [run_deploy] at he
      simp at he
  | some n =>
    cases fp with
    | none =>
      intro e he
      simp only [run_deploy] at he
      cases hn : List.lookup n d.nodes with
      | none => rw [hn] at he; simp at he
      | some node =>
        rw [hn] at he
        cases hflag : (push_all_profiles node n d.generic_settings ov pu).2 with
        | false =>
          simp only [hflag, Bool.false_eq_true, if_false] at he
          rw [push_all_profiles, pushLoop_fst] at he
          exact isCall_of_mem_pushMapName he
        | true =>
          simp only [hflag, if_true] at he
          rcases List.mem_append.mp he with h | h
          · rw [push_all_profiles, pushLoop_fst] at h
            exact isCall_of_mem_pushMapName h
          · rw [deploy_all_profiles, deployLoop_fst] at h
            exact isCall_of_mem_deployMapName h
    | some p =>
      intro e he
      simp only [run_deploy] at he
      cases hn : List.lookup n d.nodes with
      | none => rw [hn] at he; simp at he
      | some node =>
        rw [hn] at he
        dsimp only at he
        cases hp : List.lookup p node.profiles with
        | none => rw [hp] at he; simp at he
        | some prof =>
          rw [hp] at he
          cases hpu : pu (make_deploy_data d.generic_settings node n prof p ov) with
          | false =>
            simp only [hpu, Bool.false_eq_true, if_false] at he
            rcases List.mem_singleton.mp he with rfl
            rfl
          | true =>
            simp only [hpu, if_true] at he
            cases hde : de (make_deploy_data d.generic_settings node n prof p ov) with
            | false =>
              simp only [hde, Bool.false_eq_true, if_false] at he
              rcases List.mem_cons.mp he with rfl | he2
              · rfl
              · rcases List.mem_singleton.mp he2 with rfl; rfl
            | true =>
              simp only [hde, if_true] at he
              rcases List.mem_cons.mp he with rfl | he2
              · rfl
              · rcases List.mem_singleton.mp he2 with rfl; rfl

theorem gate_not_mem_rd (f : DeployFlake) (d : Data) (ov : CmdOverrides) (pu de : Oracle) :
    Ev.gate ∉ (run_deploy f d ov pu de).1 := by
  intro h
  have hc := run_deploy_calls f d ov pu de Ev.gate h
  simp [Ev.isCall] at hc

theorem warn_not_mem_rd (f : DeployFlake) (d : Data) (ov : CmdOverrides) (pu de : Oracle) :
    Ev.warn ∉ (run_deploy f d ov pu de).1 := by
  intro h
  have hc := run_deploy_calls f d ov pu de Ev.warn h
  simp [Ev.isCall] at hc

theorem c5aux_silent (f : DeployFlake) (ov : CmdOverrides) (evalOk : Bool) (data : Data)
    (pusher deployer : Oracle)
    (hm : mainModel f ov evalOk data pusher deployer =
      afterGate [Ev.gate] f ov evalOk data pusher deployer) :
    (mainModel f ov evalOk data pusher deployer).1.head? = some Ev.gate ∧
    List.count Ev.gate (mainModel f ov evalOk data pusher deployer).1 = 1 ∧
    Ev.warn ∉ (mainModel f ov evalOk data pusher deployer).1 ∧
    Ev.eval ∈ (mainModel f ov evalOk data pusher deployer).1 := by
  rw [hm]
  unfold afterGate
  cases evalOk with
  | false =>
    refine ⟨rfl, rfl, by simp, by simp⟩
  | true =>
    simp only [if_true]
    refine ⟨rfl, ?_, ?_, by simp⟩
    · have hz : List.count Ev.gate (run_deploy f data ov pusher deployer).1 = 0 :=
        List.count_eq_zero.mpr (gate_not_mem_rd f data ov pusher deployer)
      simp [List.count_cons, hz]
    · intro hmem
      simp only [List.singleton_append, List.mem_cons] at hmem
      rcases hmem with h | h | h
      · exact absurd h (by simp)
      · exact absurd h (by simp)
      · exact warn_not_mem_rd f data ov pusher deployer h

theorem c5aux_warn (f : DeployFlake) (ov : CmdOverrides) (evalOk : Bool) (data : Data)
    (pusher deployer : Oracle)
    (hm : mainModel f ov evalOk data pusher deployer =
      afterGate [Ev.gate, Ev.warn] f ov evalOk data pusher deployer) :
    (mainModel f ov evalOk data pusher deployer).1.head? = some Ev.gate ∧
    List.count Ev.gate (mainModel f ov evalOk data pusher deployer).1 = 1 ∧
    Ev.warn ∈ (mainModel f ov evalOk data pusher deployer).1 ∧
    Ev.eval ∈ (mainModel f ov evalOk data pusher deployer).1 := by
  rw [hm]
  unfold afterGate
  cases evalOk with
  | false =>
    refine ⟨rfl, rfl, by simp, by simp⟩
  | true =>
    simp only [if_true]
    refine ⟨rfl, ?_, by simp, by simp⟩
    have hz : List.count Ev.gate (run_deploy f data ov pusher deployer).1 = 0 :=
      List.count_eq_zero.mpr (gate_not_mem_rd f data ov pusher deployer)
    simp [List.count_cons, hz]

/-- C5: the override purity gate runs exactly once (one gate event, at
the head of the trace, before anything else): with classification
`ErrorProfile` and no profile given the run fails with no evaluator,
Pusher or Deployer call; with `Error` and no node given likewise; with
`Warn` and no node given a warning is emitted and the run proceeds to
the evaluator; in every other combination it proceeds silently (no
warning) to the evaluator. -/
theorem c5_purity_gate (flake : DeployFlake) (ov : CmdOverrides) (evalOk : Bool) (data : Data)
    (pusher deployer : Oracle) :
    (mainModel flake ov evalOk data pusher deployer).1.head? = some Ev.gate ∧
    List.count Ev.gate (mainModel flake ov evalOk data pusher deployer).1 = 1 ∧
    (ov.purity = OverridePurity.ErrorProfile → flake.profile = none →
      mainModel flake ov evalOk data pusher deployer = ([Ev.gate], false)) ∧
    (ov.purity = OverridePurity.Error → flake.node = none →
      mainModel flake ov evalOk data pusher deployer = ([Ev.gate], false)) ∧
    (ov.purity = OverridePurity.Warn → flake.node = none →
      Ev.warn ∈ (mainModel flake ov evalOk data pusher deployer).1 ∧
      Ev.eval ∈ (mainModel flake ov evalOk data pusher deployer).1) ∧
    (¬(ov.purity = OverridePurity.ErrorProfile ∧ flake.profile = none) →
      ¬(ov.purity = OverridePurity.Error ∧ flake.node = none) →
      ¬(ov.purity = OverridePurity.Warn ∧ flake.node = none) →
      Ev.warn ∉ (mainModel flake ov evalOk data pusher deployer).1 ∧
      Ev.eval ∈ (mainModel flake ov evalOk data pusher deployer).1) := by
  obtain ⟨repo, fn, fp⟩ := flake
  cases hp : ov.purity with
  | ErrorProfile =>
    cases fp with
    | none =>
      have hm : mainModel ⟨repo, fn, none⟩ ov evalOk data pusher deployer =
          ([Ev.gate], false) := by
        cases fn <;> simp [mainModel, hp]
      rw [hm]
      refine ⟨rfl, rfl, fun _ _ => rfl, ?_, ?_, ?_⟩
      · intro he _; cases he
      · intro hw _; cases hw
      · intro h1 _ _; exact absurd ⟨rfl, rfl⟩ h1
    | some p' =>
      have hm : mainModel ⟨repo, fn, some p'⟩ ov evalOk data pusher deployer =
          afterGate [Ev.gate] ⟨repo, fn, some p'⟩ ov evalOk data pusher deployer := by
        cases fn <;> simp [mainModel, hp]
      obtain ⟨h1, h2, h3, h4⟩ := c5aux_silent ⟨repo, fn, some p'⟩ ov evalOk data pusher
        deployer hm
      refine ⟨h1, h2, ?_, ?_, ?_, fun _ _ _ => ⟨h3, h4⟩⟩
      · intro _ hpn; exact absurd hpn (by simp)
      · intro he _; cases he
      · intro hw _; cases hw
  | Error =>
    cases fn with
    | none =>
      have hm : mainModel ⟨repo, none, fp⟩ ov evalOk data pusher deployer =
          ([Ev.gate], false) := by
        cases fp <;> simp [mainModel, hp]
      rw [hm]
      refine ⟨rfl, rfl, ?_, fun _ _ => rfl, ?_, ?_⟩
      · intro he _; cases he
      · intro hw _; cases hw
      · intro _ h2 _; exact absurd ⟨rfl, rfl⟩ h2
    | some n' =>
      have hm : mainModel ⟨repo, some n', fp⟩ ov evalOk data pusher deployer =
          afterGate [Ev.gate] ⟨repo, some n', fp⟩ ov evalOk data pusher deployer := by
        cases fp with
        | none => simp [mainModel, hp]
        | some p' => simp [mainModel, hp]
      obtain ⟨h1, h2, h3, h4⟩ := c5aux_silent ⟨repo, some n', fp⟩ ov evalOk data pusher
        deployer hm
      refine ⟨h1, h2, ?_, ?_, ?_, fun _ _ _ => ⟨h3, h4⟩⟩
      · intro he _; cases he
      · intro _ hn; exact absurd hn (by simp)
      · intro hw _; cases hw
  | Warn =>
    cases fn with
    | none =>
      have hm : mainModel ⟨repo, none, fp⟩ ov evalOk data pusher deployer =
          afterGate [Ev.gate, Ev.warn] ⟨repo, none, fp⟩ ov evalOk data pusher deployer := by
        cases fp <;> simp [mainModel, hp]
      obtain ⟨h1, h2, h3, h4⟩ := c5aux_warn ⟨repo, none, fp⟩ ov evalOk data pusher deployer hm
      refine ⟨h1, h2, ?_, ?_, fun _ _ => ⟨h3, h4⟩, ?_⟩
      · intro he _; cases he
      · intro he _; cases he
      · intro _ _ h3'; exact absurd ⟨rfl, rfl⟩ h3'
    | some n' =>
      have hm : mainModel ⟨repo, some n', fp⟩ ov evalOk data pusher deployer =
          afterGate [Ev.gate] ⟨repo, some n', fp⟩ ov evalOk data pusher deployer := by
        cases fp <;> simp [mainModel, hp]
      obtain ⟨h1, h2, h3, h4⟩ := c5aux_silent ⟨repo, some n', fp⟩ ov evalOk data pusher
        deployer hm
      refine ⟨h1, h2, ?_, ?_, ?_, fun _ _ _ => ⟨h3, h4⟩⟩
      · intro he _; cases he
      · intro _ hn; exact absurd hn (by simp)
      · intro _ hn; exact absurd hn (by simp)
  | Pure =>
    have hm : mainModel ⟨repo, fn, fp⟩ ov evalOk data pusher deployer =
        afterGate [Ev.gate] ⟨repo, fn, fp⟩ ov evalOk data pusher deployer := by
      cases fn <;> cases fp <;> simp [mainModel, hp]
    obtain ⟨h1, h2, h3, h4⟩ := c5aux_silent ⟨repo, fn, fp⟩ ov evalOk data pusher deployer hm
    refine ⟨h1, h2, ?_, ?_, ?_, fun _ _ _ => ⟨h3, h4⟩⟩
    · intro he _; cases he
    · intro he _; cases he
    · intro hw _; cases hw

/-- An overrides record setting only the profile user (classification
`ErrorProfile`). -/
def ovProfileUserEx : CmdOverrides := ⟨none, some "u", none, none, none, none⟩

/-- An overrides record setting only the SSH options (classification
`Warn`). -/
def ovSshOptsEx : CmdOverrides := ⟨none, none, some "-p 2222", none, none, none⟩

/-- Witness for C5: a profile-user override with no profile given makes
the run fail at the gate with no evaluator or external call; an
SSH-options override with no node given warns and proceeds to the
evaluator. -/
theorem c5_purity_gate_witness :
    mainModel ⟨".", some "a", none⟩ ovProfileUserEx true data3Ex oracleTrue oracleTrue =
      ([Ev.gate], false) ∧
    (Ev.warn ∈ (mainModel ⟨".", none, none⟩ ovSshOptsEx true data3Ex oracleTrue
      oracleTrue).1 ∧
     Ev.eval ∈ (mainModel ⟨".", none, none⟩ ovSshOptsEx true data3Ex oracleTrue
      oracleTrue).1) := by
  constructor
  · exact (c5_purity_gate ⟨".", some "a", none⟩ ovProfileUserEx true data3Ex oracleTrue
      oracleTrue).2.2.1 (by decide) rfl
  · exact (c5_purity_gate ⟨".", none, none⟩ ovSshOptsEx true data3Ex oracleTrue
      oracleTrue).2.2.2.2.1 (by decide) rfl

/-- C7: target selection fails with a NotFound lookup error exactly when
a requested name is absent.  With node and profile both given it fails
when the node name is absent from the deployment data or the profile
name is absent from that node's profiles, and otherwise yields the
single (node, profile) pair; with only a node given it fails when the
node name is absent and otherwise yields that node's ordered profile
list, which contains every profile of the node's mapping.  In the
failing cases the run makes no Pusher or Deployer call. -/
theorem c7_selection_not_found (data : Data) (n p repo : String) (ov : CmdOverrides)
    (pusher deployer : Oracle) :
    (List.lookup n data.nodes = none →
      (∃ e, selectTargets data (some n) (some p) = Except.error e) ∧
      (∃ e, selectTargets data (some n) none = Except.error e) ∧
      run_deploy ⟨repo, some n, some p⟩ data ov pusher deployer = ([], false) ∧
      run_deploy ⟨repo, some n, none⟩ data ov pusher deployer = ([], false)) ∧
    (∀ node, List.lookup n data.nodes = some node →
      (List.lookup p node.profiles = none →
        (∃ e, selectTargets data (some n) (some p) = Except.error e) ∧
        run_deploy ⟨repo, some n, some p⟩ data ov pusher deployer = ([], false)) ∧
      (∀ prof, List.lookup p node.profiles = some prof →
        selectTargets data (some n) (some p) = Except.ok [(n, p)]) ∧
      selectTargets data (some n) none =
        Except.ok ((profilesList node).map (fun q => (n, q))) ∧
      ∀ q ∈ node.profiles.map Prod.fst,
        (n, q) ∈ (profilesList node).map (fun q => (n, q))) := by
  constructor
  · intro hnone
    refine ⟨⟨"No node was found named " ++ n, ?_⟩, ⟨"No node was found named " ++ n, ?_⟩, ?_, ?_⟩
    · simp [selectTargets, hnone]
    · simp [selectTargets, hnone]
    · simp [run_deploy, hnone]
    · simp [run_deploy, hnone]
  · intro node hsome
    refine ⟨?_, ?_, ?_, ?_⟩
    · intro hpn
      exact ⟨⟨"No profile was found named " ++ p, by simp [selectTargets, hsome, hpn]⟩,
        by simp [run_deploy, hsome, hpn]⟩
    · intro prof hps
      simp [selectTargets, hsome, hps]
    · simp [selectTargets, hsome]
    · intro q hq
      exact List.mem_map.mpr ⟨q, keys_sub_profilesList node q hq, rfl⟩

/-- Witness for C7: on the three-node example, selecting node `a` with
its profile `pa` yields the single pair, selecting node `a` alone yields
its full profile list, selecting a missing profile name or a missing
node name is a lookup error, and the missing-node run makes no call and
fails. -/
theorem c7_selection_not_found_witness :
    selectTargets data3Ex (some "a") (some "pa") = Except.ok [("a", "pa")] ∧
    selectTargets data3Ex (some "a") none = Except.ok [("a", "pa")] ∧
    (∃ e, selectTargets data3Ex (some "a") (some "zz") = Except.error e) ∧
    (∃ e, selectTargets data3Ex (some "zz") none = Except.error e) ∧
    run_deploy ⟨".", some "zz", none⟩ data3Ex ovEmpty oracleTrue oracleTrue = ([], false) := by
  have ha := (c7_selection_not_found data3Ex "a" "pa" "." ovEmpty oracleTrue oracleTrue).2
    (nodeSingle "pa") (by decide)
  have hz := (c7_selection_not_found data3Ex "a" "zz" "." ovEmpty oracleTrue oracleTrue).2
    (nodeSingle "pa") (by decide)
  have hn := (c7_selection_not_found data3Ex "zz" "pa" "." ovEmpty oracleTrue oracleTrue).1
    (by decide)
  refine ⟨ha.2.1 (profEx "pa") (by decide), ?_, (hz.1 (by decide)).1, hn.2.1, hn.2.2.2⟩
  rw [ha.2.2.1]
  rfl

theorem string_mk_ne_empty {a : List Char} (ha : a ≠ []) : String.mk a ≠ "" := by
  intro h
  have hd := congrArg String.data h
  exact ha (by simpa using hd)

/-- C9: the flake reference parser maps `repo#nodeA.profileB` to its
three components and `repo` (no hash) to a bare repository locator with
no node and no profile; `repo#nodeA` keeps the profile absent; it fails
on malformed syntax — more than one dot after the hash, or an empty node
or profile segment — and every successful parse has nonempty node and
profile names. -/
theorem c9_parse_flake :
    parse_flake "repo#nodeA.profileB" =
      Except.ok ⟨"repo", some "nodeA", some "profileB"⟩ ∧
    parse_flake "repo" = Except.ok ⟨"repo", none, none⟩ ∧
    parse_flake "repo#nodeA" = Except.ok ⟨"repo", some "nodeA", none⟩ ∧
    (∃ e, parse_flake "repo#a.b.c" = Except.error e) ∧
    (∃ e, parse_flake "repo#.profileB" = Except.error e) ∧
    (∃ e, parse_flake "repo#nodeA." = Except.error e) ∧
    (∃ e, parse_flake "repo#" = Except.error e) ∧
    (∀ s r, parse_flake s = Except.ok r →
      (∀ nm, r.node = some nm → nm ≠ "") ∧ (∀ pf, r.profile = some pf → pf ≠ "")) := by
  refine ⟨rfl, rfl, rfl,
    ⟨"more than one dot after the hash in flake reference", rfl⟩,
    ⟨"empty node segment in flake reference", rfl⟩,
    ⟨"empty profile segment in flake reference", rfl⟩,
    ⟨"empty node segment in flake reference", rfl⟩, ?_⟩
  intro s r h
  unfold parse_flake at h
  cases hb : breakFirst '#' s.toList with
  | none =>
    rw [hb] at h
    injection h with h2
    subst h2
    exact ⟨fun nm hnm => absurd hnm (by simp), fun pf hpf => absurd hpf (by simp)⟩
  | some pr =>
    obtain ⟨repo, frag⟩ := pr
    rw [hb] at h
    dsimp only at h
    cases hs : splitOnChar '.' frag with
    | nil => rw [hs] at h; simp at h
    | cons a rest =>
      cases rest with
      | nil =>
        rw [hs] at h
        dsimp only at h
        split at h
        · cases h
        · rename_i ha
          injection h with h2
          subst h2
          refine ⟨fun nm hnm => ?_, fun pf hpf => absurd hpf (by simp)⟩
          injection hnm with h3
          subst h3
          exact string_mk_ne_empty ha
      | cons b rest2 =>
        cases rest2 with
        | nil =>
          rw [hs] at h
          dsimp only at h
          split at h
          · cases h
          · rename_i ha
            split at h
            · cases h
            · rename_i hbne
              injection h with h2
              subst h2
              refine ⟨fun nm hnm => ?_, fun pf hpf => ?_⟩
              · injection hnm with h3
                subst h3
                exact string_mk_ne_empty ha
              · injection hpf with h3
                subst h3
                exact string_mk_ne_empty hbne
        | cons c rest3 =>
          rw [hs] at h
          simp at h

/-- Witness for C9: the successful parse of `repo#nodeA.profileB`
yields nonempty node and profile names. -/
theorem c9_parse_flake_witness : "nodeA" ≠ "" ∧ "profileB" ≠ "" := by
  have h := c9_parse_flake.2.2.2.2.2.2.2 "repo#nodeA.profileB"
    ⟨"repo", some "nodeA", some "profileB"⟩ (by rfl)
  exact ⟨h.1 "nodeA" rfl, h.2 "profileB" rfl⟩

end Deploy
